import Mathlib

/-!
# Verification of the mergemock Engine API backend

Shallow embedding of the `EngineBackend` of the mergemock repository
(`GetPayloadV1`, `NewPayloadV1`, `ForkchoiceUpdatedV1` and the state they share:
the `payloadIdCounter` and the LRU cache `recentPayloads`), together with proofs
of the specification's claims about it.

The chain component (`MockChain`: `GetHeaderByHash`, `ProcessPayload`,
`AddNewBlock`), the payload hash check (`ValidateHash`) and the block-to-wire
conversion (`BlockToPayload`) are external collaborators of the slice under
specification; they are modelled as parameters collected in `ChainModel`, so
every theorem quantifies over all of their behaviours.  Machine integers
(the `uint64` payload-id counter) are modelled as `Nat` with explicit
reduction modulo `2 ^ 64`.
-/

namespace Mergemock

/-- 32-byte block hashes, opaque to the backend; modelled as `Nat`. -/
abbrev Hash := Nat

/-- 20-byte account addresses, opaque to the backend; modelled as `Nat`. -/
abbrev Address := Nat

/-- `type PayloadID [8]byte`: an 8-byte identifier, modelled as its list of
byte values. -/
abbrev PayloadID := List Nat

/-- The modulus of Go's `uint64` arithmetic, `2 ^ 64`. -/
def uint64Mod : Nat := 2 ^ 64

/-- `binary.BigEndian.PutUint64`: the 8 bytes of `v` (mod `2 ^ 64`),
most significant first. -/
def putUint64BE (v : Nat) : PayloadID :=
  [v / 2 ^ 56 % 256, v / 2 ^ 48 % 256, v / 2 ^ 40 % 256, v / 2 ^ 32 % 256,
   v / 2 ^ 24 % 256, v / 2 ^ 16 % 256, v / 2 ^ 8 % 256, v % 256]

/-- Interpretation of a byte string as a big-endian unsigned integer. -/
def beUint64 (bs : List Nat) : Nat :=
  bs.foldl (fun acc b => acc * 256 + b) 0

/-- The wire `ExecutionPayloadV1` structure.  The backend reads only
`parentHash` and `blockHash`; the remaining header fields and the transaction
list are carried opaquely. -/
structure ExecutionPayloadV1 where
  parentHash : Hash
  feeRecipient : Address
  blockNumber : Nat
  timestamp : Nat
  prevRandao : Hash
  blockHash : Hash
  transactions : List Nat
deriving DecidableEq, Repr

/-- The execution-status enumeration of `PayloadStatusV1.Status`
(`ExecutionValid`, `ExecutionInvalid`, `ExecutionSyncing`,
`ExecutionInvalidBlockHash`, `ExecutionInvalidTerminalBlock`). -/
inductive ExecutionStatus where
  | valid
  | invalid
  | syncing
  | invalidBlockHash
  | invalidTerminalBlock
deriving DecidableEq, Repr

/-- The wire `PayloadStatusV1` structure: a status, optionally carrying a
latest valid hash and/or a validation-error message. -/
structure PayloadStatusV1 where
  status : ExecutionStatus
  latestValidHash : Option Hash
  validationError : Option String
deriving DecidableEq, Repr

/-- The wire `ForkchoiceStateV1` structure. -/
structure ForkchoiceStateV1 where
  headBlockHash : Hash
  safeBlockHash : Hash
  finalizedBlockHash : Hash
deriving DecidableEq, Repr

/-- The wire `PayloadAttributesV1` structure. -/
structure PayloadAttributesV1 where
  timestamp : Nat
  prevRandao : Hash
  suggestedFeeRecipient : Address
deriving DecidableEq, Repr

/-- The wire `ForkchoiceUpdatedResult` structure: a payload status and an
optional payload identifier. -/
structure ForkchoiceUpdatedResult where
  status : PayloadStatusV1
  payloadID : Option PayloadID
deriving DecidableEq, Repr

/-- A parent header as read by `NewPayloadV1`: the backend consults only the
`Difficulty` field (a `big.Int`, modelled as `Int`), compared against the
terminal total difficulty. -/
structure Header where
  difficulty : Int
deriving DecidableEq, Repr

/-- The dynamically typed values (`interface\x7b\x7d`) stored in the LRU cache
`recentPayloads`.  `payloadV1` is a stored `*ExecutionPayloadV1`; `other`
stands for a value of any other dynamic type, on which the retrieval-time type
assertion of `GetPayloadV1` would panic. -/
inductive CacheValue where
  | payloadV1 (p : ExecutionPayloadV1)
  | other (tag : Nat)
deriving DecidableEq, Repr

/-- Modelled from the spec: the bounded LRU cache of
`github.com/hashicorp/golang-lru` used for `recentPayloads` (its
implementation is not part of the sources under verification).  Entries are
kept most-recently-used first; `put` inserts at the front and drops beyond
`capacity`; a successful `get` refreshes recency. -/
structure LRU (K V : Type) where
  capacity : Nat
  entries : List (K × V)
deriving DecidableEq, Repr

/-- Remove every entry with the given key. -/
def eraseKey [DecidableEq K] (k : K) (l : List (K × V)) : List (K × V) :=
  l.filter (fun e => decide (e.1 ≠ k))

/-- Modelled from the spec: pure lookup of the value currently cached under a
key (observation only, no recency effect). -/
def LRU.lookup [DecidableEq K] (c : LRU K V) (k : K) : Option V :=
  (c.entries.find? (fun e => decide (e.1 = k))).map Prod.snd

/-- Modelled from the spec: `get(id)`.  A miss leaves the cache untouched; a
hit returns the cached value and moves its entry to the front (reads refresh
recency). -/
def LRU.get [DecidableEq K] (c : LRU K V) (k : K) : Option V × LRU K V :=
  match c.entries.find? (fun e => decide (e.1 = k)) with
  | none => (none, c)
  | some e => (some e.2, ⟨c.capacity, (k, e.2) :: eraseKey k c.entries⟩)

/-- Modelled from the spec: `put(id, payload)`.  Inserts or replaces at the
front; if that exceeds `capacity`, the least-recently-used entries (at the
back) are evicted. -/
def LRU.add [DecidableEq K] (c : LRU K V) (k : K) (v : V) : LRU K V :=
  ⟨c.capacity, ((k, v) :: eraseKey k c.entries).take c.capacity⟩

/-- The error channel of the backend.  `unavailablePayload` is the dedicated
`rpcError` with code `UnavailablePayload` raised by `GetPayloadV1`;
`chainError` is an error propagated verbatim from the chain component (block
execution, block construction or payload conversion). -/
inductive EngineError where
  | unavailablePayload (id : PayloadID)
  | chainError (msg : String)
deriving DecidableEq, Repr

/-- Outcome of one RPC method call: a successful result, an error returned to
the caller, or a runtime panic (a failed type assertion). -/
inductive RpcOutcome (α : Type) where
  | ok (value : α)
  | error (e : EngineError)
  | panic
deriving DecidableEq, Repr

/-- The external collaborators of the backend, as one parameter record.
`χ` is the (abstract) state of the mock chain, `β` its block type.

* `validateHash` — `payload.ValidateHash()` (the payload's declared block hash
  is consistent with a hash computed from its own contents);
* `getHeaderByHash` — `mockChain.chain.GetHeaderByHash`;
* `ttd` — `mockChain.gspec.Config.TerminalTotalDifficulty`;
* `processPayload` — `mockChain.ProcessPayload` (may fail and may mutate the
  chain state);
* `addNewBlock` — `mockChain.AddNewBlock` applied to the head hash and the
  payload attributes (the gas limit, the empty transactions creator and the
  empty extra data that `ForkchoiceUpdatedV1` always passes are folded into
  this function);
* `blockToPayload` — `BlockToPayload`. -/
structure ChainModel (χ β : Type) where
  validateHash : ExecutionPayloadV1 → Bool
  getHeaderByHash : χ → Hash → Option Header
  ttd : Int
  processPayload : χ → ExecutionPayloadV1 → Except String Unit × χ
  addNewBlock : χ → Hash → PayloadAttributesV1 → Except String β × χ
  blockToPayload : β → Except String ExecutionPayloadV1

/-- The mutable state of one `EngineBackend`: the `uint64` payload-id counter,
the LRU cache of recent payloads, and the chain component's state. -/
structure EngineState (χ : Type) where
  payloadIdCounter : Nat
  recentPayloads : LRU PayloadID CacheValue
  chain : χ
deriving DecidableEq, Repr

/-- `NewEngineBackend`: counter at `0`, an empty LRU cache of capacity `10`. -/
def newEngineBackend (c0 : χ) : EngineState χ :=
  ⟨0, ⟨10, []⟩, c0⟩

/-- `GetPayloadV1`: look the identifier up in `recentPayloads`.  A miss
returns the `UnavailablePayload` error and leaves the state untouched; a hit
returns the cached value through the type assertion `payload.(*ExecutionPayloadV1)`,
which panics if the cached value is of any other dynamic type. -/
def getPayloadV1 (s : EngineState χ) (id : PayloadID) :
    RpcOutcome ExecutionPayloadV1 × EngineState χ :=
  match s.recentPayloads.get id with
  | (none, _) => (.error (.unavailablePayload id), s)
  | (some (.payloadV1 p), c') => (.ok p, { s with recentPayloads := c' })
  | (some (.other _), c') => (.panic, { s with recentPayloads := c' })

/-- `NewPayloadV1`: check the declared block hash, look up the parent, gate on
terminal total difficulty, then execute the payload. -/
def newPayloadV1 (cm : ChainModel χ β) (s : EngineState χ)
    (payload : ExecutionPayloadV1) : RpcOutcome PayloadStatusV1 × EngineState χ :=
  if !cm.validateHash payload then
    (.ok ⟨.invalidBlockHash, none, none⟩, s)
  else
    match cm.getHeaderByHash s.chain payload.parentHash with
    | none => (.ok ⟨.syncing, none, none⟩, s)
    | some parent =>
      if parent.difficulty < cm.ttd then
        (.ok ⟨.invalidTerminalBlock, none, none⟩, s)
      else
        match cm.processPayload s.chain payload with
        | (.error e, c') => (.error (.chainError e), { s with chain := c' })
        | (.ok _, c') => (.ok ⟨.valid, none, none⟩, { s with chain := c' })

/-- `ForkchoiceUpdatedV1`: with no attributes, report `VALID` at the head hash
and change nothing.  With attributes, first take a fresh identifier
(`atomic.AddUint64(&e.payloadIdCounter, 1)`, big-endian-encoded into 8 bytes),
then build a block on the head, convert it to a wire payload, cache it under
the identifier, and return `VALID` plus the identifier; a construction or
conversion failure is propagated as an error after the counter was already
advanced. -/
def forkchoiceUpdatedV1 (cm : ChainModel χ β) (s : EngineState χ)
    (heads : ForkchoiceStateV1) (attributes : Option PayloadAttributesV1) :
    RpcOutcome ForkchoiceUpdatedResult × EngineState χ :=
  match attributes with
  | none =>
      (.ok ⟨⟨.valid, some heads.headBlockHash, none⟩, none⟩, s)
  | some attr =>
      let idU64 := (s.payloadIdCounter + 1) % uint64Mod
      let id : PayloadID := putUint64BE idU64
      let s1 : EngineState χ := { s with payloadIdCounter := idU64 }
      match cm.addNewBlock s1.chain heads.headBlockHash attr with
      | (.error e, c') => (.error (.chainError e), { s1 with chain := c' })
      | (.ok bl, c') =>
        match cm.blockToPayload bl with
        | .error e => (.error (.chainError e), { s1 with chain := c' })
        | .ok payload =>
          (.ok ⟨⟨.valid, some heads.headBlockHash, none⟩, some id⟩,
           { s1 with chain := c',
                     recentPayloads := s1.recentPayloads.add id (.payloadV1 payload) })

/-- One RPC call to the backend, with its arguments. -/
inductive EngineOp where
  | getPayload (id : PayloadID)
  | newPayload (payload : ExecutionPayloadV1)
  | forkchoice (heads : ForkchoiceStateV1) (attributes : Option PayloadAttributesV1)

/-- Number of forkchoice calls with attributes present in a call sequence
(each such call draws one identifier from the counter). -/
def attrCount : List EngineOp → Nat
  | [] => 0
  | .forkchoice _ (some _) :: rest => attrCount rest + 1
  | .forkchoice _ none :: rest => attrCount rest
  | .getPayload _ :: rest => attrCount rest
  | .newPayload _ :: rest => attrCount rest

/-- Observations of one call: the identifiers it drew from the counter, the
identifiers it returned to the caller, and the state it left behind. -/
structure OpResult (χ : Type) where
  allocated : List PayloadID
  returned : List PayloadID
  state : EngineState χ

/-- Execute one call and record its observations. -/
def applyOp (cm : ChainModel χ β) (s : EngineState χ) : EngineOp → OpResult χ
  | .getPayload id => ⟨[], [], (getPayloadV1 s id).2⟩
  | .newPayload p => ⟨[], [], (newPayloadV1 cm s p).2⟩
  | .forkchoice heads attrs =>
    let r := forkchoiceUpdatedV1 cm s heads attrs
    ⟨match attrs with
     | none => []
     | some _ => [putUint64BE ((s.payloadIdCounter + 1) % uint64Mod)],
     match r.1 with
     | .ok res =>
       match res.payloadID with
       | some id => [id]
       | none => []
     | .error _ => []
     | .panic => [],
     r.2⟩

/-- Execute a sequence of calls from a state, accumulating the observations. -/
def runOps (cm : ChainModel χ β) (s : EngineState χ) : List EngineOp → OpResult χ
  | [] => ⟨[], [], s⟩
  | op :: rest =>
    let r1 := applyOp cm s op
    let r := runOps cm r1.state rest
    ⟨r1.allocated ++ r.allocated, r1.returned ++ r.returned, r.state⟩

/-- Every value in the cache is a stored wire payload (the dynamic-type
invariant behind the type assertion in `GetPayloadV1`). -/
def CacheWF (c : LRU PayloadID CacheValue) : Prop :=
  ∀ e ∈ c.entries, ∃ p, e.2 = CacheValue.payloadV1 p

/-- The state invariant of the backend: the cache holds only wire payloads,
never more entries than its capacity, and its capacity is the `10` fixed by
`NewEngineBackend`. -/
def EngineInv (s : EngineState χ) : Prop :=
  CacheWF s.recentPayloads
  ∧ s.recentPayloads.entries.length ≤ s.recentPayloads.capacity
  ∧ s.recentPayloads.capacity = 10

/-- A concrete wire payload used in witnesses. -/
def demoPayload : ExecutionPayloadV1 :=
  ⟨0, 0, 0, 1000, 0, 1, []⟩

/-- A concrete forkchoice state used in witnesses. -/
def demoHeads : ForkchoiceStateV1 :=
  ⟨7, 7, 7⟩

/-- Concrete payload attributes used in witnesses. -/
def demoAttrs : PayloadAttributesV1 :=
  ⟨1000, 0, 0⟩

/-- A chain model on which every operation succeeds: hashes always validate,
every parent is found at difficulty above the terminal total difficulty, and
block construction, conversion and execution always succeed. -/
def trivCm : ChainModel Unit Unit where
  validateHash := fun _ => true
  getHeaderByHash := fun _ _ => some ⟨1000⟩
  ttd := 500
  processPayload := fun c _ => (.ok (), c)
  addNewBlock := fun c _ _ => (.ok (), c)
  blockToPayload := fun _ => .ok demoPayload

/-- A chain model whose block construction always fails. -/
def failCm : ChainModel Unit Unit where
  validateHash := fun _ => true
  getHeaderByHash := fun _ _ => some ⟨1000⟩
  ttd := 500
  processPayload := fun c _ => (.ok (), c)
  addNewBlock := fun c _ _ => (.error "cannot build block", c)
  blockToPayload := fun _ => .ok demoPayload

/-- A chain model whose parents sit below the terminal total difficulty. -/
def lowTdCm : ChainModel Unit Unit where
  validateHash := fun _ => true
  getHeaderByHash := fun _ _ => some ⟨0⟩
  ttd := 500
  processPayload := fun c _ => (.ok (), c)
  addNewBlock := fun c _ _ => (.ok (), c)
  blockToPayload := fun _ => .ok demoPayload

/-- A chain model that knows no headers at all. -/
def syncCm : ChainModel Unit Unit where
  validateHash := fun _ => true
  getHeaderByHash := fun _ _ => none
  ttd := 500
  processPayload := fun c _ => (.ok (), c)
  addNewBlock := fun c _ _ => (.ok (), c)
  blockToPayload := fun _ => .ok demoPayload

/-- A chain model on which every declared block hash is inconsistent. -/
def badHashCm : ChainModel Unit Unit where
  validateHash := fun _ => false
  getHeaderByHash := fun _ _ => some ⟨1000⟩
  ttd := 500
  processPayload := fun c _ => (.ok (), c)
  addNewBlock := fun c _ _ => (.ok (), c)
  blockToPayload := fun _ => .ok demoPayload

/-- The forkchoice call (with attributes) used by the identifier-counter
scenarios. -/
def demoAttrOp : EngineOp :=
  .forkchoice demoHeads (some demoAttrs)

/-- The key of the `i`-th payload in the LRU eviction scenario. -/
def scenarioKey (i : Nat) : PayloadID :=
  putUint64BE i

/-- The value of the `i`-th payload in the LRU eviction scenario. -/
def scenarioVal (i : Nat) : CacheValue :=
  .payloadV1 ⟨0, 0, i, 0, 0, i, []⟩

/-- The capacity-10 cache after inserting payloads 1 to 10 in order. -/
def scenarioAfter10 : LRU PayloadID CacheValue :=
  (List.range 10).foldl (fun c i => c.add (scenarioKey (i + 1)) (scenarioVal (i + 1))) ⟨10, []⟩

/-- The cache after additionally reading payload 1 (refreshing its recency)
and inserting an 11th payload: payload 2 is now the least recently used and
is evicted. -/
def scenarioFinal : LRU PayloadID CacheValue :=
  ((scenarioAfter10.get (scenarioKey 1)).2).add (scenarioKey 11) (scenarioVal 11)

/-- A backend state whose cache holds `demoPayload` under identifier 1,
used to exercise the cache-hit branch of `GetPayloadV1`. -/
def demoHitState : EngineState Unit :=
  ⟨1, ⟨10, [(putUint64BE 1, .payloadV1 demoPayload)]⟩, ()⟩

/-- Big-endian decoding inverts big-endian encoding, modulo `2 ^ 64`. -/
theorem beUint64_putUint64BE (v : Nat) : beUint64 (putUint64BE v) = v % uint64Mod := by
  simp [putUint64BE, beUint64, uint64Mod]
  omega

/-- C7: `update(forkchoiceState, attributes=absent)` returns status `VALID`
with `latestValidHash = forkchoiceState.headBlockHash` and no PayloadID, and
leaves the whole backend state (identifier counter, cache, chain) untouched. -/
theorem forkchoice_no_attributes (cm : ChainModel χ β) (s : EngineState χ)
    (heads : ForkchoiceStateV1) :
    forkchoiceUpdatedV1 cm s heads none =
      (.ok ⟨⟨.valid, some heads.headBlockHash, none⟩, none⟩, s) := rfl

/-- C5: a payload whose declared block hash does not validate yields status
`INVALID_BLOCK_HASH` as a successful response with the state untouched, and
the result is the same for any two chain models agreeing on the failed hash
check — in particular it is independent of the parent lookup, the terminal
total difficulty and the execution function. -/
theorem newPayload_invalid_block_hash (cm cm' : ChainModel χ β) (s : EngineState χ)
    (p : ExecutionPayloadV1)
    (h : cm.validateHash p = false) (h' : cm'.validateHash p = false) :
    newPayloadV1 cm s p = (.ok ⟨.invalidBlockHash, none, none⟩, s)
    ∧ newPayloadV1 cm' s p = newPayloadV1 cm s p := by
  refine ⟨?_, ?_⟩ <;> simp [newPayloadV1, h, h']

theorem newPayload_invalid_block_hash_witness :
    newPayloadV1 badHashCm (newEngineBackend ()) demoPayload =
      (.ok ⟨.invalidBlockHash, none, none⟩, newEngineBackend ()) :=
  (newPayload_invalid_block_hash badHashCm badHashCm (newEngineBackend ())
    demoPayload (by decide) (by decide)).1

/-- C9: a payload with a consistent block hash whose parent is unknown to the
chain component yields status `SYNCING` as a successful response with the
state untouched, and the result is the same for any two chain models agreeing
on the hash check and the failed parent lookup — in particular it is
independent of the terminal total difficulty and the execution function. -/
theorem newPayload_syncing (cm cm' : ChainModel χ β) (s : EngineState χ)
    (p : ExecutionPayloadV1)
    (h1 : cm.validateHash p = true)
    (h2 : cm.getHeaderByHash s.chain p.parentHash = none)
    (h1' : cm'.validateHash p = true)
    (h2' : cm'.getHeaderByHash s.chain p.parentHash = none) :
    newPayloadV1 cm s p = (.ok ⟨.syncing, none, none⟩, s)
    ∧ newPayloadV1 cm' s p = newPayloadV1 cm s p := by
  refine ⟨?_, ?_⟩ <;> simp [newPayloadV1, h1, h2, h1', h2']

theorem newPayload_syncing_witness :
    newPayloadV1 syncCm (newEngineBackend ()) demoPayload =
      (.ok ⟨.syncing, none, none⟩, newEngineBackend ()) :=
  (newPayload_syncing syncCm syncCm (newEngineBackend ()) demoPayload
    (by decide) (by decide) (by decide) (by decide)).1

/-- C1: a payload with a consistent block hash whose parent is found but has
its difficulty accumulator below the terminal total difficulty yields status
`INVALID_TERMINAL_BLOCK` as a successful response (not an error), with the
state untouched. -/
theorem newPayload_invalid_terminal_block (cm : ChainModel χ β) (s : EngineState χ)
    (p : ExecutionPayloadV1) (parent : Header)
    (h1 : cm.validateHash p = true)
    (h2 : cm.getHeaderByHash s.chain p.parentHash = some parent)
    (h3 : parent.difficulty < cm.ttd) :
    newPayloadV1 cm s p = (.ok ⟨.invalidTerminalBlock, none, none⟩, s) := by
  simp [newPayloadV1, h1, h2, h3]

theorem newPayload_invalid_terminal_block_witness :
    newPayloadV1 lowTdCm (newEngineBackend ()) demoPayload =
      (.ok ⟨.invalidTerminalBlock, none, none⟩, newEngineBackend ()) :=
  newPayload_invalid_terminal_block lowTdCm (newEngineBackend ()) demoPayload
    ⟨0⟩ (by decide) (by decide) (by decide)

/-- C6: whenever `ForkchoiceUpdatedV1` returns a successful result, its
`payloadId` field is present exactly when payload attributes were supplied
(construction succeeded, otherwise the call would have returned an error
instead of a result), and the reported status is `VALID`. -/
theorem forkchoice_payload_id_iff (cm : ChainModel χ β) (s : EngineState χ)
    (heads : ForkchoiceStateV1) (attributes : Option PayloadAttributesV1)
    (r : ForkchoiceUpdatedResult)
    (h : (forkchoiceUpdatedV1 cm s heads attributes).1 = .ok r) :
    (r.payloadID.isSome ↔ attributes.isSome) ∧ r.status.status = .valid := by
  cases attributes with
  | none =>
      simp only [forkchoiceUpdatedV1] at h
      cases h
      simp
  | some attr =>
      simp only [forkchoiceUpdatedV1] at h
      split at h
      · simp at h
      · split at h
        · simp at h
        · cases h
          simp

theorem forkchoice_payload_id_iff_witness :
    ((⟨⟨.valid, some demoHeads.headBlockHash, none⟩, none⟩ :
        ForkchoiceUpdatedResult).payloadID.isSome ↔
      (none : Option PayloadAttributesV1).isSome)
    ∧ (⟨⟨.valid, some demoHeads.headBlockHash, none⟩, none⟩ :
        ForkchoiceUpdatedResult).status.status = .valid :=
  forkchoice_payload_id_iff trivCm (newEngineBackend ()) demoHeads none
    ⟨⟨.valid, some demoHeads.headBlockHash, none⟩, none⟩ (by decide)

/-- C8: `GetPayloadV1` on an identifier absent from the cache returns the
dedicated `UnavailablePayload` error (a distinct error constructor, not the
generic chain-error one) and leaves the state untouched; on a cached
identifier it returns the stored wire payload. -/
theorem getPayload_cache_semantics (s : EngineState χ) (id : PayloadID) :
    (s.recentPayloads.lookup id = none →
      getPayloadV1 s id = (.error (.unavailablePayload id), s))
    ∧ ∀ p : ExecutionPayloadV1,
        s.recentPayloads.lookup id = some (.payloadV1 p) →
        (getPayloadV1 s id).1 = .ok p := by
  constructor
  · intro h
    unfold LRU.lookup at h
    unfold getPayloadV1 LRU.get
    cases hfind : s.recentPayloads.entries.find? (fun e => decide (e.1 = id)) with
    | none => simp [hfind]
    | some e => simp [hfind] at h
  · intro p h
    unfold LRU.lookup at h
    unfold getPayloadV1 LRU.get
    cases hfind : s.recentPayloads.entries.find? (fun e => decide (e.1 = id)) with
    | none => simp [hfind] at h
    | some e =>
      simp only [hfind] at h
      simp only [Option.map] at h
      injection h with h
      simp [hfind, h]

theorem getPayload_cache_semantics_witness :
    getPayloadV1 (newEngineBackend ()) (putUint64BE 1) =
      (.error (.unavailablePayload (putUint64BE 1)), newEngineBackend ())
    ∧ (getPayloadV1 demoHitState (putUint64BE 1)).1 = .ok demoPayload :=
  ⟨(getPayload_cache_semantics (newEngineBackend ()) (putUint64BE 1)).1 (by decide),
   (getPayload_cache_semantics demoHitState (putUint64BE 1)).2 demoPayload (by decide)⟩

/-- Erasing a key removes at least the entry that `find?` located. -/
theorem length_eraseKey_lt [DecidableEq K] (k : K) (l : List (K × V))
    (h : ∃ e ∈ l, e.1 = k) : (eraseKey k l).length < l.length := by
  induction l with
  | nil => rcases h with ⟨e, he, -⟩; cases he
  | cons a l ih =>
    by_cases hk : a.1 = k
    · have heq : eraseKey k (a :: l) = eraseKey k l := by
        simp [eraseKey, hk]
      rw [heq]
      calc (eraseKey k l).length ≤ l.length := List.length_filter_le _ _
        _ < (a :: l).length := by simp
    · have heq : eraseKey k (a :: l) = a :: eraseKey k l := by
        simp [eraseKey, hk]
      rw [heq]
      rcases h with ⟨e, he, hek⟩
      rcases List.mem_cons.mp he with rfl | hmem
      · exact absurd hek hk
      · simpa using ih ⟨e, hmem, hek⟩

/-- Inserting a wire payload preserves the dynamic-type invariant. -/
theorem cacheWF_add (c : LRU PayloadID CacheValue) (k : PayloadID)
    (p : ExecutionPayloadV1) (h : CacheWF c) : CacheWF (c.add k (.payloadV1 p)) := by
  intro e he
  simp only [LRU.add] at he
  rcases List.mem_cons.mp (List.mem_of_mem_take he) with rfl | hmem
  · exact ⟨p, rfl⟩
  · exact h e (List.mem_filter.mp hmem).1

/-- After an insertion the cache never holds more entries than its
capacity. -/
theorem lru_add_le [DecidableEq K] (c : LRU K V) (k : K) (v : V) :
    (c.add k v).entries.length ≤ c.capacity := by
  simp only [LRU.add, List.length_take]
  omega

/-- A read preserves the dynamic-type invariant, the capacity bound and the
capacity itself. -/
theorem lru_get_inv (c : LRU PayloadID CacheValue) (k : PayloadID)
    (hwf : CacheWF c) (hlen : c.entries.length ≤ c.capacity) :
    CacheWF (c.get k).2 ∧ (c.get k).2.entries.length ≤ (c.get k).2.capacity
      ∧ (c.get k).2.capacity = c.capacity := by
  unfold LRU.get
  cases hfind : c.entries.find? (fun e => decide (e.1 = k)) with
  | none => exact ⟨hwf, hlen, rfl⟩
  | some e =>
    have hek : e.1 = k := by simpa using List.find?_some hfind
    have hmem : e ∈ c.entries := List.mem_of_find?_eq_some hfind
    refine ⟨?_, ?_, rfl⟩
    · intro x hx
      rcases List.mem_cons.mp hx with rfl | hx'
      · exact hwf e hmem
      · exact hwf x (List.mem_filter.mp hx').1
    · have := length_eraseKey_lt k c.entries ⟨e, hmem, hek⟩
      simp only [List.length_cons]
      omega

/-- A read can never surface a value that is not a wire payload if the
invariant holds. -/
theorem lru_get_wf (c : LRU PayloadID CacheValue) (k : PayloadID)
    (hwf : CacheWF c) (t : Nat) (c' : LRU PayloadID CacheValue)
    (h : c.get k = (some (CacheValue.other t), c')) : False := by
  unfold LRU.get at h
  cases hfind : c.entries.find? (fun e => decide (e.1 = k)) with
  | none => rw [hfind] at h; cases h
  | some e =>
    rw [hfind] at h
    obtain ⟨p, hp⟩ := hwf e (List.mem_of_find?_eq_some hfind)
    injection h with h1 h2
    rw [hp] at h1
    cases h1

/-- The initial backend state satisfies the invariant. -/
theorem engineInv_init (c0 : χ) : EngineInv (newEngineBackend c0) := by
  refine ⟨?_, by simp [newEngineBackend], rfl⟩
  intro e he
  cases he

/-- `GetPayloadV1` preserves the backend invariant. -/
theorem engineInv_getPayload (s : EngineState χ) (id : PayloadID)
    (h : EngineInv s) : EngineInv (getPayloadV1 s id).2 := by
  obtain ⟨hwf, hlen, hcap⟩ := h
  have hg := lru_get_inv s.recentPayloads id hwf hlen
  unfold getPayloadV1
  split
  · exact ⟨hwf, hlen, hcap⟩
  · rename_i p c' heq
    rw [heq] at hg
    exact ⟨hg.1, hg.2.1, hg.2.2.trans hcap⟩
  · rename_i t c' heq
    rw [heq] at hg
    exact ⟨hg.1, hg.2.1, hg.2.2.trans hcap⟩

/-- `NewPayloadV1` never touches the payload cache. -/
theorem newPayloadV1_cache (cm : ChainModel χ β) (s : EngineState χ)
    (p : ExecutionPayloadV1) :
    (newPayloadV1 cm s p).2.recentPayloads = s.recentPayloads := by
  unfold newPayloadV1
  split
  · rfl
  · split
    · rfl
    · split
      · rfl
      · split <;> rfl

/-- `NewPayloadV1` never touches the identifier counter. -/
theorem newPayloadV1_counter (cm : ChainModel χ β) (s : EngineState χ)
    (p : ExecutionPayloadV1) :
    (newPayloadV1 cm s p).2.payloadIdCounter = s.payloadIdCounter := by
  unfold newPayloadV1
  split
  · rfl
  · split
    · rfl
    · split
      · rfl
      · split <;> rfl

/-- `GetPayloadV1` never touches the identifier counter. -/
theorem getPayloadV1_counter (s : EngineState χ) (id : PayloadID) :
    (getPayloadV1 s id).2.payloadIdCounter = s.payloadIdCounter := by
  unfold getPayloadV1
  split <;> rfl

/-- `NewPayloadV1` preserves the backend invariant. -/
theorem engineInv_newPayload (cm : ChainModel χ β) (s : EngineState χ)
    (p : ExecutionPayloadV1) (h : EngineInv s) : EngineInv (newPayloadV1 cm s p).2 := by
  obtain ⟨hwf, hlen, hcap⟩ := h
  have hc := newPayloadV1_cache cm s p
  exact ⟨by rw [hc]; exact hwf, by rw [hc]; exact hlen, by rw [hc]; exact hcap⟩

/-- `ForkchoiceUpdatedV1` preserves the backend invariant. -/
theorem engineInv_forkchoice (cm : ChainModel χ β) (s : EngineState χ)
    (heads : ForkchoiceStateV1) (attributes : Option PayloadAttributesV1)
    (h : EngineInv s) : EngineInv (forkchoiceUpdatedV1 cm s heads attributes).2 := by
  obtain ⟨hwf, hlen, hcap⟩ := h
  cases attributes with
  | none => exact ⟨hwf, hlen, hcap⟩
  | some attr =>
    simp only [forkchoiceUpdatedV1]
    split
    · exact ⟨hwf, hlen, hcap⟩
    · split
      · exact ⟨hwf, hlen, hcap⟩
      · refine ⟨cacheWF_add _ _ _ hwf, ?_, hcap⟩
        exact lru_add_le _ _ _

/-- One call preserves the backend invariant. -/
theorem engineInv_applyOp (cm : ChainModel χ β) (s : EngineState χ)
    (op : EngineOp) (h : EngineInv s) : EngineInv (applyOp cm s op).state := by
  cases op with
  | getPayload id => exact engineInv_getPayload s id h
  | newPayload p => exact engineInv_newPayload cm s p h
  | forkchoice heads attrs => exact engineInv_forkchoice cm s heads attrs h

/-- Any call sequence preserves the backend invariant. -/
theorem engineInv_runOps (cm : ChainModel χ β) (ops : List EngineOp) :
    ∀ s : EngineState χ, EngineInv s → EngineInv (runOps cm s ops).state := by
  induction ops with
  | nil => intro s h; exact h
  | cons op rest ih =>
    intro s h
    simp only [runOps]
    exact ih _ (engineInv_applyOp cm s op h)

/-- C10: in every backend state reachable from `NewEngineBackend` by any
sequence of RPC calls, every cached value is a wire payload stored by a
successful `ForkchoiceUpdatedV1` with attributes, so the type assertion
performed by `GetPayloadV1` on a cache hit never panics. -/
theorem getPayload_type_assertion_safe (cm : ChainModel χ β) (c0 : χ)
    (ops : List EngineOp) (id : PayloadID) :
    (getPayloadV1 (runOps cm (newEngineBackend c0) ops).state id).1 ≠ RpcOutcome.panic := by
  obtain ⟨hwf, -, -⟩ := engineInv_runOps cm ops (newEngineBackend c0) (engineInv_init c0)
  unfold getPayloadV1
  split
  · exact fun hc => RpcOutcome.noConfusion hc
  · exact fun hc => RpcOutcome.noConfusion hc
  · rename_i t c' heq
    exact (lru_get_wf _ id hwf t c' heq).elim

theorem getPayload_type_assertion_safe_witness :
    (getPayloadV1 (runOps trivCm (newEngineBackend ()) [demoAttrOp]).state
      (putUint64BE 1)).1 ≠ RpcOutcome.panic :=
  getPayload_type_assertion_safe trivCm () [demoAttrOp] (putUint64BE 1)

/-- C4: the payload cache of every reachable backend state holds at most 10
entries; and in the concrete scenario of 11 distinct payloads inserted into
the capacity-10 cache with payload 1 read in between, exactly payload 2 — the
least recently used entry by access order, not by insertion order — is
evicted, and the other 10 remain retrievable. -/
theorem cache_capacity_and_lru :
    (∀ (χ β : Type) (cm : ChainModel χ β) (c0 : χ) (ops : List EngineOp),
      ((runOps cm (newEngineBackend c0) ops).state).recentPayloads.entries.length ≤ 10)
    ∧ scenarioFinal.entries.length = 10
    ∧ scenarioFinal.lookup (scenarioKey 2) = none
    ∧ ([1, 3, 4, 5, 6, 7, 8, 9, 10, 11].all
        (fun i => (scenarioFinal.lookup (scenarioKey i)).isSome)) = true := by
  refine ⟨?_, by decide, by decide, by decide⟩
  intro χ β cm c0 ops
  obtain ⟨-, hlen, hcap⟩ := engineInv_runOps cm ops (newEngineBackend c0) (engineInv_init c0)
  omega

/-- C3 counterexample: on a backend whose chain component cannot build a
block, a `ForkchoiceUpdatedV1` call with attributes fails with the propagated
error, yet the identifier counter has advanced from 0 to 1 — it is not left
"exactly as before the call". -/
theorem forkchoice_counter_advances_on_failure :
    (newEngineBackend ()).payloadIdCounter = 0
    ∧ (forkchoiceUpdatedV1 failCm (newEngineBackend ()) demoHeads (some demoAttrs)).1
        = .error (.chainError "cannot build block")
    ∧ (forkchoiceUpdatedV1 failCm (newEngineBackend ()) demoHeads
        (some demoAttrs)).2.payloadIdCounter = 1 := by
  refine ⟨rfl, by decide, by decide⟩

/-- C3 (amended): an `update` (ForkchoiceUpdatedV1) call with attributes that
fails (block construction or payload conversion error) returns the propagated
error, returns no PayloadID, and adds no cache entry — the cache is exactly
as before the call; the identifier counter, however, is advanced before
construction starts, so even a failed call consumes one identifier. -/
theorem forkchoice_failure_frame (cm : ChainModel χ β) (s : EngineState χ)
    (heads : ForkchoiceStateV1) (attr : PayloadAttributesV1) (e : EngineError)
    (h : (forkchoiceUpdatedV1 cm s heads (some attr)).1 = .error e) :
    (forkchoiceUpdatedV1 cm s heads (some attr)).2.recentPayloads = s.recentPayloads
    ∧ (forkchoiceUpdatedV1 cm s heads (some attr)).2.payloadIdCounter
        = (s.payloadIdCounter + 1) % uint64Mod := by
  rcases hab : cm.addNewBlock s.chain heads.headBlockHash attr with ⟨eb, c'⟩
  cases eb with
  | error msg => refine ⟨?_, ?_⟩ <;> simp [forkchoiceUpdatedV1, hab]
  | ok bl =>
    cases hbp : cm.blockToPayload bl with
    | error msg => refine ⟨?_, ?_⟩ <;> simp [forkchoiceUpdatedV1, hab, hbp]
    | ok payload =>
      exfalso
      simp [forkchoiceUpdatedV1, hab, hbp] at h

theorem forkchoice_failure_frame_witness :
    (forkchoiceUpdatedV1 failCm (newEngineBackend ()) demoHeads
        (some demoAttrs)).2.recentPayloads = (newEngineBackend ()).recentPayloads
    ∧ (forkchoiceUpdatedV1 failCm (newEngineBackend ()) demoHeads
        (some demoAttrs)).2.payloadIdCounter
        = ((newEngineBackend ()).payloadIdCounter + 1) % uint64Mod :=
  forkchoice_failure_frame failCm (newEngineBackend ()) demoHeads demoAttrs
    (.chainError "cannot build block") (by decide)

/-- The `uint64` modulus as a numeral. -/
theorem uint64Mod_eq : uint64Mod = 18446744073709551616 := by norm_num [uint64Mod]

/-- Prepending the image of `0` turns a shifted map over `range n` into a map
over `range (n + 1)`. -/
theorem range_map_shift {α : Type} (f : Nat → α) (x : α) (n : Nat) (h0 : x = f 0)
    (g : Nat → α) (hg : ∀ i < n, g i = f (i + 1)) :
    x :: (List.range n).map g = (List.range (n + 1)).map f := by
  rw [List.range_succ_eq_map, List.map_cons, List.map_map, h0]
  congr 1
  refine List.map_congr_left ?_
  intro i hi
  simp only [Function.comp_apply, Nat.succ_eq_add_one]
  exact hg i (List.mem_range.mp hi)

/-- A forkchoice call with attributes always advances the counter to
`(old + 1) % 2 ^ 64`, whether or not construction succeeds. -/
theorem forkchoice_counter_some (cm : ChainModel χ β) (s : EngineState χ)
    (heads : ForkchoiceStateV1) (attr : PayloadAttributesV1) :
    (forkchoiceUpdatedV1 cm s heads (some attr)).2.payloadIdCounter
      = (s.payloadIdCounter + 1) % uint64Mod := by
  rcases hab : cm.addNewBlock s.chain heads.headBlockHash attr with ⟨eb, c'⟩
  cases eb with
  | error msg => simp [forkchoiceUpdatedV1, hab]
  | ok bl =>
    cases hbp : cm.blockToPayload bl with
    | error msg => simp [forkchoiceUpdatedV1, hab, hbp]
    | ok payload => simp [forkchoiceUpdatedV1, hab, hbp]

/-- A successful forkchoice call with attributes returns exactly the
identifier encoding the advanced counter. -/
theorem forkchoice_returned_id (cm : ChainModel χ β) (s : EngineState χ)
    (heads : ForkchoiceStateV1) (attr : PayloadAttributesV1)
    (res : ForkchoiceUpdatedResult)
    (h : (forkchoiceUpdatedV1 cm s heads (some attr)).1 = .ok res) :
    res.payloadID = some (putUint64BE ((s.payloadIdCounter + 1) % uint64Mod)) := by
  rcases hab : cm.addNewBlock s.chain heads.headBlockHash attr with ⟨eb, c'⟩
  cases eb with
  | error msg => simp [forkchoiceUpdatedV1, hab] at h
  | ok bl =>
    cases hbp : cm.blockToPayload bl with
    | error msg => simp [forkchoiceUpdatedV1, hab, hbp] at h
    | ok payload =>
      simp only [forkchoiceUpdatedV1, hab, hbp] at h
      cases h
      rfl

/-- The observations of one forkchoice call with attributes: it draws exactly
the identifier encoding the advanced counter, returns at most that
identifier, and advances the counter. -/
theorem applyOp_forkchoice_some (cm : ChainModel χ β) (s : EngineState χ)
    (heads : ForkchoiceStateV1) (attr : PayloadAttributesV1) :
    (applyOp cm s (.forkchoice heads (some attr))).allocated
        = [putUint64BE ((s.payloadIdCounter + 1) % uint64Mod)]
    ∧ (applyOp cm s (.forkchoice heads (some attr))).returned.Sublist
        [putUint64BE ((s.payloadIdCounter + 1) % uint64Mod)]
    ∧ (applyOp cm s (.forkchoice heads (some attr))).state.payloadIdCounter
        = (s.payloadIdCounter + 1) % uint64Mod := by
  refine ⟨rfl, ?_, forkchoice_counter_some cm s heads attr⟩
  simp only [applyOp]
  cases hout : (forkchoiceUpdatedV1 cm s heads (some attr)).1 with
  | ok res =>
    have hid := forkchoice_returned_id cm s heads attr res hout
    simp [hout, hid]
  | error e => simp [hout]
  | panic => simp [hout]

/-- Counter evolution and drawn identifiers along any call sequence: starting
below the modulus, the counter counts the attribute-present forkchoice calls
modulo `2 ^ 64`, the drawn identifiers encode the successive counter values,
and the returned identifiers form a sublist of the drawn ones. -/
theorem runOps_ids (cm : ChainModel χ β) (ops : List EngineOp) :
    ∀ s : EngineState χ, s.payloadIdCounter < uint64Mod →
      (runOps cm s ops).state.payloadIdCounter
          = (s.payloadIdCounter + attrCount ops) % uint64Mod
      ∧ (runOps cm s ops).allocated
          = (List.range (attrCount ops)).map
              (fun i => putUint64BE ((s.payloadIdCounter + i + 1) % uint64Mod))
      ∧ (runOps cm s ops).returned.Sublist (runOps cm s ops).allocated := by
  induction ops with
  | nil =>
    intro s hs
    exact ⟨by simp [runOps, attrCount, Nat.mod_eq_of_lt hs], rfl, List.Sublist.refl _⟩
  | cons op rest ih =>
    intro s hs
    cases op with
    | getPayload id =>
      have hc := getPayloadV1_counter s id
      obtain ⟨ihc, iha, ihs⟩ := ih (getPayloadV1 s id).2 (by rw [hc]; exact hs)
      rw [hc] at ihc iha
      simp only [runOps, applyOp, attrCount, List.nil_append]
      exact ⟨ihc, iha, ihs⟩
    | newPayload p =>
      have hc := newPayloadV1_counter cm s p
      obtain ⟨ihc, iha, ihs⟩ := ih (newPayloadV1 cm s p).2 (by rw [hc]; exact hs)
      rw [hc] at ihc iha
      simp only [runOps, applyOp, attrCount, List.nil_append]
      exact ⟨ihc, iha, ihs⟩
    | forkchoice heads attrs =>
      cases attrs with
      | none =>
        obtain ⟨ihc, iha, ihs⟩ := ih (forkchoiceUpdatedV1 cm s heads none).2 hs
        simp only [runOps, applyOp, attrCount, List.nil_append]
        exact ⟨ihc, iha, ihs⟩
      | some attr =>
        obtain ⟨ha1, hr1, hc1⟩ := applyOp_forkchoice_some cm s heads attr
        have hlt : ((applyOp cm s (.forkchoice heads (some attr))).state).payloadIdCounter
            < uint64Mod := by
          rw [hc1]
          exact Nat.mod_lt _ (by rw [uint64Mod_eq]; omega)
        obtain ⟨ihc, iha, ihs⟩ := ih _ hlt
        rw [hc1] at ihc iha
        simp only [runOps, attrCount]
        refine ⟨?_, ?_, ?_⟩
        · rw [ihc]
          rw [uint64Mod_eq]
          omega
        · rw [ha1, iha, List.singleton_append]
          refine range_map_shift _ _ _ (by simp) _ ?_
          intro i hi
          congr 1
          rw [uint64Mod_eq]
          omega
        · rw [ha1]
          exact List.Sublist.append hr1 ihs

/-- C2 (amended): on one backend instance, as long as fewer than `2 ^ 64`
identifiers have been drawn (the counter is a `uint64` and wraps), the
identifiers drawn by forkchoice calls with attributes encode `1, 2, 3, …`
big-endian, the returned PayloadIDs are a sublist of them, strictly
increasing as big-endian unsigned integers and pairwise distinct, the counter
starts at `0`, the first drawn identifier encodes `1`, and the all-zero
identifier is never issued. -/
theorem forkchoice_payload_ids_monotone (cm : ChainModel χ β) (c0 : χ)
    (ops : List EngineOp) (h : attrCount ops < uint64Mod) :
    (newEngineBackend c0).payloadIdCounter = 0
    ∧ (runOps cm (newEngineBackend c0) ops).allocated
        = (List.range (attrCount ops)).map (fun i => putUint64BE (i + 1))
    ∧ (runOps cm (newEngineBackend c0) ops).returned.Sublist
        (runOps cm (newEngineBackend c0) ops).allocated
    ∧ ((runOps cm (newEngineBackend c0) ops).returned.map beUint64).Pairwise (· < ·)
    ∧ (runOps cm (newEngineBackend c0) ops).returned.Pairwise (· ≠ ·)
    ∧ (∀ id ∈ (runOps cm (newEngineBackend c0) ops).allocated, beUint64 id ≠ 0)
    ∧ (0 < attrCount ops →
        (runOps cm (newEngineBackend c0) ops).allocated.head? = some (putUint64BE 1)) := by
  obtain ⟨-, halloc, hsub⟩ := runOps_ids cm ops (newEngineBackend c0)
    (show (0 : Nat) < uint64Mod by rw [uint64Mod_eq]; omega)
  rw [uint64Mod_eq] at h
  have halloc' : (runOps cm (newEngineBackend c0) ops).allocated
      = (List.range (attrCount ops)).map (fun i => putUint64BE (i + 1)) := by
    rw [halloc]
    refine List.map_congr_left ?_
    intro i hi
    have hi' := List.mem_range.mp hi
    show putUint64BE ((0 + i + 1) % uint64Mod) = putUint64BE (i + 1)
    congr 1
    rw [uint64Mod_eq]
    omega
  have hmapall : ((runOps cm (newEngineBackend c0) ops).allocated.map beUint64).Pairwise
      (· < ·) := by
    rw [halloc', List.map_map]
    have hpt : (List.range (attrCount ops)).map (beUint64 ∘ fun i => putUint64BE (i + 1))
        = (List.range (attrCount ops)).map (fun i => i + 1) := by
      refine List.map_congr_left ?_
      intro i hi
      have hi' := List.mem_range.mp hi
      simp only [Function.comp_apply]
      rw [beUint64_putUint64BE, uint64Mod_eq]
      omega
    rw [hpt]
    exact (List.pairwise_lt_range _).map _ (fun a b hab => Nat.succ_lt_succ hab)
  have hmapret : ((runOps cm (newEngineBackend c0) ops).returned.map beUint64).Pairwise
      (· < ·) :=
    List.Pairwise.sublist (List.Sublist.map beUint64 hsub) hmapall
  refine ⟨rfl, halloc', hsub, hmapret, ?_, ?_, ?_⟩
  · refine (List.pairwise_map.mp hmapret).imp ?_
    intro a b hab heq
    rw [heq] at hab
    exact lt_irrefl _ hab
  · intro id hid
    rw [halloc'] at hid
    obtain ⟨i, hi, rfl⟩ := List.mem_map.mp hid
    have hi' := List.mem_range.mp hi
    rw [beUint64_putUint64BE, uint64Mod_eq]
    omega
  · intro hpos
    rw [halloc']
    rcases hn : attrCount ops with - | k
    · omega
    · rw [List.range_succ_eq_map, List.map_cons]
      simp

theorem forkchoice_payload_ids_monotone_witness :
    (runOps trivCm (newEngineBackend ()) [demoAttrOp]).allocated
      = (List.range (attrCount [demoAttrOp])).map (fun i => putUint64BE (i + 1)) :=
  (forkchoice_payload_ids_monotone trivCm () [demoAttrOp] (by decide)).2.1

/-- On the all-success chain model, every forkchoice call with attributes
returns b the identifier it drew, so the returned identifiers coincide with
the drawn ones. -/
theorem trivCm_returned_eq_allocated (n : Nat) :
    ∀ s : EngineState Unit,
      (runOps trivCm s (List.replicate n demoAttrOp)).returned
        = (runOps trivCm s (List.replicate n demoAttrOp)).allocated := by
  induction n with
  | zero => intro s; rfl
  | succ k ih =>
    intro s
    have h1 : (applyOp trivCm s demoAttrOp).returned
        = (applyOp trivCm s demoAttrOp).allocated := by
      simp [applyOp, demoAttrOp, forkchoiceUpdatedV1, trivCm]
    simp only [List.replicate_succ, runOps]
    rw [h1, ih]

/-- Every element of a replicated forkchoice-with-attributes sequence draws
one identifier. -/
theorem attrCount_replicate_demo (n : Nat) :
    attrCount (List.replicate n demoAttrOp) = n := by
  induction n with
  | zero => rfl
  | succ k ih =>
    rw [List.replicate_succ]
    show attrCount (EngineOp.forkchoice demoHeads (some demoAttrs)
      :: List.replicate k demoAttrOp) = k + 1
    simp only [attrCount]
    rw [ih]

/-- C2 counterexample: after `2 ^ 64` prepare-payload calls on an
all-success backend, the `uint64` counter has wrapped and the all-zero
identifier (8 zero bytes, decoding to 0) is in fact issued and returned,
contradicting the unbounded uniqueness and never-all-zero claim. -/
theorem forkchoice_zero_id_issued :
    List.replicate 8 0 ∈
      (runOps trivCm (newEngineBackend ()) (List.replicate uint64Mod demoAttrOp)).returned
    ∧ beUint64 (List.replicate 8 0) = 0 := by
  constructor
  · rw [trivCm_returned_eq_allocated]
    obtain ⟨-, halloc, -⟩ := runOps_ids trivCm (List.replicate uint64Mod demoAttrOp)
      (newEngineBackend ()) (show (0 : Nat) < uint64Mod by rw [uint64Mod_eq]; omega)
    rw [halloc, attrCount_replicate_demo]
    refine List.mem_map.mpr
      ⟨uint64Mod - 1, List.mem_range.mpr (by rw [uint64Mod_eq]; omega), ?_⟩
    show putUint64BE (((newEngineBackend ()).payloadIdCounter + (uint64Mod - 1) + 1)
        % uint64Mod) = List.replicate 8 0
    have hz : (((newEngineBackend ()).payloadIdCounter + (uint64Mod - 1) + 1)
        % uint64Mod) = 0 := by
      show (0 + (uint64Mod - 1) + 1) % uint64Mod = 0
      rw [uint64Mod_eq]
    rw [hz]
    decide
  · decide

end Mergemock
